import Mathlib

/-!
Verification of the nuitkaty build-tool core against its specification.

This file gives a shallow embedding of the relevant parts of the source:
`src/core/config.py` (`Config.to_command`, `Config.update`, `Config._quote_path`),
`src/core/nuitka_runner.py` (`NuitkaRunner.run`, `NuitkaRunner.stop`,
`NuitkaRunner._parse_command`, `NuitkaRunner._parse_progress`),
`src/core/log_reader_thread.py` (`LogReaderThread._read_new_logs`) and
`src/models/embedded_files.py` (`EmbeddedFile.validate`), together with the
Python standard-library tokenizer `shlex.split(…, posix=False)` that
`_parse_command` delegates to.

Strings are modelled as Lean `String`s; file contents and byte offsets are
modelled as `List Char` with one char per byte (all inputs considered are
ASCII, where the two coincide).
-/

namespace Nuitkaty

/-! ## String helpers (Python `in`, `startswith`, `endswith`, `str.split()`) -/

/-- `leadsWith pat s` is true when `pat` occurs at the start of `s`. -/
def leadsWith : List Char → List Char → Bool
  | [], _ => true
  | _ :: _, [] => false
  | p :: ps, c :: cs => p == c && leadsWith ps cs

/-- `hasSub s pat`: Python `pat in s` substring test (true for empty `pat`). -/
def hasSub : List Char → List Char → Bool
  | [], pat => leadsWith pat []
  | c :: cs, pat => leadsWith pat (c :: cs) || hasSub cs pat

/-- Python `pat in s` on strings. -/
def strHasSub (s pat : String) : Bool :=
  hasSub s.toList pat.toList

/-- Python `s.endswith(suf)`. -/
def pyEndsWith (s suf : String) : Bool :=
  leadsWith suf.toList.reverse s.toList.reverse

/-- Python `s.startswith(pre)`. -/
def pyBeginsWith (s pre : String) : Bool :=
  leadsWith pre.toList s.toList

/-- Python whitespace characters recognised by `str.split()`. -/
def pyIsSpace (c : Char) : Bool :=
  c == ' ' || c == '\t' || c == '\n' || c == '\r' || c == '\x0b' || c == '\x0c'

/-- Helper for `pySplitWs`: accumulates the current word reversed in `acc`. -/
def pySplitAux : List Char → List Char → List String
  | [], acc => if acc.isEmpty then [] else [String.mk acc.reverse]
  | c :: cs, acc =>
    if pyIsSpace c then
      if acc.isEmpty then pySplitAux cs [] else String.mk acc.reverse :: pySplitAux cs []
    else pySplitAux cs (c :: acc)

/-- Python `s.split()` with no arguments: split on runs of whitespace, no empties. -/
def pySplitWs (s : String) : List String :=
  pySplitAux s.toList []

/-! ## Configuration values (OmegaConf scalars and containers) -/

/-- A YAML/OmegaConf value as handled by `config.py`. -/
inductive Value where
  | vNone
  | vBool (b : Bool)
  | vInt (n : Int)
  | vStr (s : String)
  | vList (items : List Value)
  | vDict (entries : List (String × Value))

/-- Python truthiness (`bool(v)`) for the modelled values. -/
def truthy : Value → Bool
  | .vNone => false
  | .vBool b => b
  | .vInt n => n != 0
  | .vStr s => s != ""
  | .vList l => !l.isEmpty
  | .vDict d => !d.isEmpty

/-- Truthiness of an optional value: `OmegaConf.select` returns `None` for a
missing key, which is falsy. -/
def optTruthy : Option Value → Bool
  | none => false
  | some v => truthy v

mutual

/-- Python `repr(v)` for the modelled values (used by `str` on containers). -/
def pyRepr : Value → String
  | .vNone => "None"
  | .vBool true => "True"
  | .vBool false => "False"
  | .vInt n => toString n
  | .vStr s => "'" ++ s ++ "'"
  | .vList items => "[" ++ String.intercalate ", " (pyReprList items) ++ "]"
  | .vDict entries => "\x7b" ++ String.intercalate ", " (pyReprDict entries) ++ "\x7d"

/-- `repr` of each element of a list value. -/
def pyReprList : List Value → List String
  | [] => []
  | v :: vs => pyRepr v :: pyReprList vs

/-- `repr` of each entry of a dict value. -/
def pyReprDict : List (String × Value) → List String
  | [] => []
  | kv :: kvs => ("'" ++ kv.1 ++ "': " ++ pyRepr kv.2) :: pyReprDict kvs

end

/-- Python `str(v)` / f-string interpolation of a value. -/
def pyStr : Value → String
  | .vNone => "None"
  | .vBool true => "True"
  | .vBool false => "False"
  | .vInt n => toString n
  | .vStr s => s
  | v => pyRepr v

/-- The skip test in `Config.to_command`
(`value is None or value in ["auto","none", "", 0, False,"False","false"]`),
using Python `==` semantics (`False == 0`, `True` matches nothing in the list). -/
def isAbsentSentinel : Value → Bool
  | .vNone => true
  | .vStr s => s == "auto" || s == "none" || s == "" || s == "False" || s == "false"
  | .vInt n => n == 0
  | .vBool b => !b
  | _ => false

/-- Python `item is not None and item != ''` from the list-value branch. -/
def listItemKept : Value → Bool
  | .vNone => false
  | .vStr s => s != ""
  | _ => true

/-! ## The configuration document and `OmegaConf` select/update

The document is modelled as an insertion-ordered association list from full
dotted key paths to values (`OmegaConf.update` replaces an existing key in
place and appends a new key; `OmegaConf.select` returns `None` when absent).
The dotted paths used by the program (`nuitka.standalone`, `nuitka.onefile`,
…) address disjoint leaves, so the flat model is faithful for them.
-/

/-- A configuration document: ordered key/value pairs, keys unique. -/
abbrev Doc := List (String × Value)

/-- `OmegaConf.select(cfg, k)`. -/
def docSelect : Doc → String → Option Value
  | [], _ => none
  | kv :: rest, k => if kv.1 = k then some kv.2 else docSelect rest k

/-- `OmegaConf.update(cfg, k, v)`: replace in place, or append a new key. -/
def docUpdate : Doc → String → Value → Doc
  | [], k, v => [(k, v)]
  | kv :: rest, k, v => if kv.1 = k then (k, v) :: rest else kv :: docUpdate rest k v

/-! ## `Config._quote_path` and `Config.to_command` -/

/-- `Config._quote_path`: replace backslashes by forward slashes, then escape
any double quote as backslash-quote.  Despite its docstring, neither this
method nor any caller adds surrounding quotes. -/
def quotePath (path : String) : String :=
  let normalized := String.mk (path.toList.map (fun c => if c == '\\' then '/' else c))
  if normalized.toList.contains '"' then
    String.mk ((normalized.toList.map (fun c => if c == '"' then ['\\', '"'] else [c])).flatten)
  else normalized

/-- The `Config` state relevant to `to_command`: the `python.path` entry, the
`nuitka` section of the loaded document (insertion-ordered), and the four
runtime-only override attributes set by `Config.temp`. -/
structure ConfigModel where
  pythonPath : String
  nuitka : List (String × Value)
  entryFile : String
  outputDir : String
  outputFilename : String
  iconPath : String

/-- `Config.SPECIAL_KEYS`. -/
def specialKeys : List String :=
  ["enabled-plugins", "disabled-plugins", "embedded-files"]

/-- One iteration of the generic key loop in `Config.to_command`: the flags
contributed by one `nuitka` document entry. -/
def genericFlags (kv : String × Value) : List String :=
  if specialKeys.contains kv.1 then []
  else
    match kv.2 with
    | .vList items =>
      if items.isEmpty then []
      else items.filterMap (fun item =>
        if listItemKept item then some ("--" ++ kv.1 ++ "=" ++ pyStr item) else none)
    | .vDict _ => []
    | v =>
      if isAbsentSentinel v then []
      else
        match v with
        | .vBool b => if b then ["--" ++ kv.1] else []
        | .vStr s => ["--" ++ kv.1 ++ "=" ++ quotePath s]
        | w => ["--" ++ kv.1 ++ "=" ++ pyStr w]

/-- The enable/disable plugin emitters (`--enable-plugin=…`, `--disable-plugin=…`).
A plugin key whose value is not a list is outside the model (Python would
raise iterating it); in the configurations considered it is always a list. -/
def pluginFlags (nuitka : List (String × Value)) (key flagName : String) : List String :=
  match docSelect nuitka key with
  | some (.vList items) =>
    if items.isEmpty then []
    else items.map (fun p => "--" ++ flagName ++ "=" ++ pyStr p)
  | _ => []

/-- The embedded-files emitter: dict-shaped entries with truthy source and
destination paths yield `--include-data-files=<quoted source>=<dest>`. -/
def embeddedFlags (nuitka : List (String × Value)) : List String :=
  match docSelect nuitka "embedded-files" with
  | some (.vList items) =>
    if items.isEmpty then []
    else items.filterMap (fun item =>
      match item with
      | .vDict kvs =>
        let source := (docSelect kvs "source-path").getD (.vStr "")
        let dest := (docSelect kvs "destination-path").getD (.vStr "")
        if truthy source && truthy dest then
          some ("--include-data-files=" ++ quotePath (pyStr source) ++ "=" ++ pyStr dest)
        else none
      | _ => none)
  | _ => []

/-- `Config.to_command`: the full command string.  Mirrors the source order:
base invocation, the three runtime override flags, the generic key loop over
the `nuitka` section, plugin flags, embedded-file flags, entry positional. -/
def toCommand (c : ConfigModel) : String :=
  let parts : List String := [c.pythonPath, "-m", "nuitka"]
  let parts := if c.outputDir != "" then
      parts ++ ["--output-dir=" ++ quotePath c.outputDir]
    else parts
  let parts := if c.outputFilename != "" then
      let ofn := if pyEndsWith c.outputFilename ".exe" then c.outputFilename
                 else c.outputFilename ++ ".exe"
      parts ++ ["--output-filename=" ++ quotePath ofn]
    else parts
  let parts := if c.iconPath != "" then
      parts ++ ["--windows-icon-from-ico=" ++ quotePath c.iconPath]
    else parts
  let parts := parts ++ (c.nuitka.map genericFlags).flatten
  let parts := parts ++ pluginFlags c.nuitka "enabled-plugins" "enable-plugin"
  let parts := parts ++ pluginFlags c.nuitka "disabled-plugins" "disable-plugin"
  let parts := parts ++ embeddedFlags c.nuitka
  let parts := if c.entryFile != "" then parts ++ [quotePath c.entryFile] else parts
  String.intercalate " " parts

/-! ## `Config.update` and the standalone/onefile mutual-exclusion logic

`Config.update(**kwargs)` first applies every key/value pair with
`OmegaConf.update`, then scans the kwargs keys for ones containing the
substrings `standalone` / `onefile` (`if 'standalone' in key`, with an
`elif` for `onefile`, later keys overwriting earlier matches), and finally
forces the opposite flag to `False` when the detected key was set to the
Python singleton `True`.  Kwargs are a Python dict: keys are unique and
insertion-ordered; they are modelled as an ordered list of pairs.
-/

/-- One step of the detection loop over kwargs keys
(`standalone_key` in the first component, `onefile_key` in the second). -/
def findKeyPair (p : Option String × Option String) (k : String) :
    Option String × Option String :=
  if strHasSub k "standalone" then (some k, p.2)
  else if strHasSub k "onefile" then (p.1, some k)
  else p

/-- Python `kwargs.get(k)` on the (unique-keyed) kwargs dict. -/
def kwargsGet (kwargs : List (String × Value)) (k : String) : Option Value :=
  (kwargs.find? (fun kv => kv.1 == k)).map (fun kv => kv.2)

/-- `Config.update(**kwargs)` acting on the loaded document. -/
def configUpdate (d : Doc) (kwargs : List (String × Value)) : Doc :=
  let d1 := kwargs.foldl (fun acc kv => docUpdate acc kv.1 kv.2) d
  let keys := (kwargs.map Prod.fst).foldl findKeyPair (none, none)
  let d2 :=
    match keys.1 with
    | some saKey =>
      match kwargsGet kwargs saKey with
      | some (.vBool true) =>
        match keys.2 with
        | some ofKey => docUpdate d1 ofKey (.vBool false)
        | none =>
          if optTruthy (docSelect d1 "nuitka.onefile") then
            docUpdate d1 "nuitka.onefile" (.vBool false)
          else d1
      | _ => d1
    | none => d1
  let d3 :=
    match keys.2 with
    | some ofKey =>
      match kwargsGet kwargs ofKey with
      | some (.vBool true) =>
        match keys.1 with
        | some saKey => docUpdate d2 saKey (.vBool false)
        | none =>
          if optTruthy (docSelect d2 "nuitka.standalone") then
            docUpdate d2 "nuitka.standalone" (.vBool false)
          else d2
      | _ => d2
    | none => d2
  d3

/-! ## `shlex.split(command, posix=False)` and `NuitkaRunner._parse_command`

`_parse_command` calls `shlex.split(command, posix=False)` (which sets
`whitespace_split=True`) and falls back to `command.split()` if that raises.
The state machine below is the CPython `shlex.read_token` loop specialised
to `posix=False`, `whitespace_split=True`, empty `punctuation_chars`,
commenter `#`: in state `' '` a quote character opens a retained-quotes
span (EOF inside it raises `ValueError`), the closing quote ends the token;
inside a word every non-whitespace, non-`#` character (quotes included) is
appended verbatim; `#` consumes the rest of the line.  The token under
construction is accumulated in reverse.
-/

/-- Lexer state of `shlex.read_token`: between tokens, inside a word, inside
a quoted span, or consuming a comment line (remembering whether a word was
in progress). -/
inductive SState where
  | space
  | word
  | quoteSt (q : Char)
  | commentSt (inWord : Bool)

/-- The characters `shlex` treats as whitespace. -/
def shlexWhitespace : List Char := [' ', '\t', '\r', '\n']

/-- The `shlex` quote characters. -/
def shlexQuotes : List Char := ['\'', '"']

/-- The `shlex.read_token` loop over the whole stream, collecting tokens. -/
def shlexStep : List Char → SState → List Char → List (List Char) →
    Except Unit (List (List Char))
  | [], st, tok, acc =>
    match st with
    | .quoteSt _ => .error ()
    | .commentSt true => if tok.isEmpty then .ok acc else .ok (acc ++ [tok.reverse])
    | .commentSt false => .ok acc
    | .word => if tok.isEmpty then .ok acc else .ok (acc ++ [tok.reverse])
    | .space => .ok acc
  | c :: cs, st, tok, acc =>
    match st with
    | .space =>
      if shlexWhitespace.contains c then shlexStep cs .space [] acc
      else if c == '#' then shlexStep cs (.commentSt false) [] acc
      else if shlexQuotes.contains c then shlexStep cs (.quoteSt c) [c] acc
      else shlexStep cs .word [c] acc
    | .word =>
      if shlexWhitespace.contains c then shlexStep cs .space [] (acc ++ [tok.reverse])
      else if c == '#' then shlexStep cs (.commentSt true) tok acc
      else shlexStep cs .word (c :: tok) acc
    | .quoteSt q =>
      if c == q then shlexStep cs .space [] (acc ++ [(c :: tok).reverse])
      else shlexStep cs (.quoteSt q) (c :: tok) acc
    | .commentSt inWord =>
      if c == '\n' then shlexStep cs (if inWord then .word else .space) tok acc
      else shlexStep cs (.commentSt inWord) tok acc

/-- `shlex.split(s, posix=False)`: token list, or an error for an unclosed
leading quote. -/
def shlexSplitNonPosix (s : String) : Except Unit (List String) :=
  match shlexStep s.toList .space [] [] with
  | .ok toks => .ok (toks.map String.mk)
  | .error _ => .error ()

/-- `NuitkaRunner._parse_command`: quote-aware split with a fallback to
plain whitespace splitting when `shlex` raises. -/
def parseCommand (command : String) : List String :=
  match shlexSplitNonPosix command with
  | .ok toks => toks
  | .error _ => pySplitWs command

/-! ## `LogReaderThread._read_new_logs`

The tailer state is the stored byte offset `_last_position` and the
`_log_file_exists` flag.  The file system is presented to one poll as
`Option (List Char)`: `none` when `os.path.exists` is false, otherwise the
current file content (one `Char` per byte).  The poll returns the new state
and the batch passed to `logs_received.emit`, if any.
-/

/-- Tailer state: `_last_position` and `_log_file_exists`. -/
structure TailState where
  lastPosition : Nat
  logFileExists : Bool
deriving DecidableEq, Repr

/-- Helper for `pyReadlines`: accumulates the current line in reverse. -/
def readlinesAux : List Char → List Char → List (List Char)
  | [], acc => if acc.isEmpty then [] else [acc.reverse]
  | c :: cs, acc =>
    if c == '\n' then (acc.reverse ++ ['\n']) :: readlinesAux cs []
    else readlinesAux cs (c :: acc)

/-- Python `f.readlines()`: split after each newline, keeping the
terminator; a final piece without a newline is kept if non-empty. -/
def pyReadlines (content : List Char) : List (List Char) :=
  readlinesAux content []

/-- Python `line.rstrip('\n\r')`: drop trailing newline and carriage-return
characters. -/
def rstripNL (l : List Char) : List Char :=
  (l.reverse.dropWhile (fun c => c == '\n' || c == '\r')).reverse

/-- `LogReaderThread._read_new_logs`, one poll cycle. -/
def readNewLogs (st : TailState) (file : Option (List Char)) :
    TailState × Option (List (List Char)) :=
  match file with
  | none => if st.logFileExists then (⟨0, false⟩, none) else (st, none)
  | some content =>
    let st1 := if st.logFileExists then st else ⟨0, true⟩
    let fileSize := content.length
    if fileSize = 0 ∨ fileSize ≤ st1.lastPosition then (st1, none)
    else
      let newLines := pyReadlines (content.drop st1.lastPosition)
      let st2 : TailState := ⟨fileSize, st1.logFileExists⟩
      if newLines.isEmpty then (st2, none)
      else
        let filtered := (newLines.map rstripNL).filter (fun l => !l.isEmpty)
        if filtered.isEmpty then (st2, none) else (st2, some filtered)

/-! ## `NuitkaRunner.run` / `NuitkaRunner.stop`

The build task and runner are modelled with timestamps as abstract `Nat`
instants supplied by the caller.  Process spawning is abstracted into a
`SpawnOutcome`: the stream of raw output lines plus the exit code, or one of
the two exception classes `run` catches.  The log file is modelled as the
list of messages written to it (`_write_log` additionally prefixes each line
with a wall-clock timestamp and level, which the claims do not inspect);
killing the external process tree in `stop` is an external effect outside
the state.
-/

/-- `TaskStatus` from `build_task.py`. -/
inductive TaskStatus where
  | pending
  | running
  | completed
  | failed
deriving DecidableEq, Repr

/-- The `BuildTask` fields mutated by the runner. -/
structure TaskModel where
  status : TaskStatus
  startTime : Option Nat
  endTime : Option Nat
  exitCode : Option Int
  progress : Nat
  logs : List String
deriving DecidableEq, Repr

/-- The keyword→percentage table of `_parse_progress`, in source order. -/
def progressKeywords : List (String × Nat) :=
  [("starting", 5), ("parsing", 10), ("importing", 15), ("compiling", 30),
   ("linking", 70), ("copying", 90), ("done", 100), ("completed", 100),
   ("finished", 100)]

/-- ASCII lowering, enough for `line.lower()` over the keyword table. -/
def asciiLower (c : Char) : Char :=
  if 'A' ≤ c ∧ c ≤ 'Z' then Char.ofNat (c.toNat + 32) else c

/-- `line.lower()` (ASCII part). -/
def strLower (s : String) : String :=
  String.mk (s.toList.map asciiLower)

/-- Numeric value of a digit run. -/
def digitsToNat (l : List Char) : Nat :=
  l.foldl (fun n c => n * 10 + (c.toNat - '0'.toNat)) 0

/-- `re.search(r'(\d+)%', line)`: the first maximal digit run immediately
followed by `%` (a shorter run at the same start is followed by a digit, so
regex backtracking adds no further matches). -/
def findPercent : List Char → Option Nat
  | [] => none
  | c :: cs =>
    if c.isDigit then
      match (c :: cs).dropWhile Char.isDigit with
      | '%' :: _ => some (digitsToNat ((c :: cs).takeWhile Char.isDigit))
      | _ => findPercent cs
    else findPercent cs

/-- `NuitkaRunner._parse_progress`: keyword table on the lowered line first,
then the percent pattern on the raw line. -/
def parseProgress (line : String) : Option Nat :=
  match progressKeywords.find? (fun kv => strHasSub (strLower line) kv.1) with
  | some kv => some kv.2
  | none => findPercent line.toList

/-- `NuitkaRunner._handle_output` effect on the task: append the line to the
in-memory log and update the progress estimate when one parses. -/
def handleOutput (t : TaskModel) (line : String) : TaskModel :=
  let t1 := { t with logs := t.logs ++ [line] }
  match parseProgress line with
  | some p => { t1 with progress := p }
  | none => t1

/-- Runner state: the owned task, whether `self.process` is set, the
`_is_running` flag, and the log file (open flag and written messages). -/
structure RunnerModel where
  task : TaskModel
  hasProcess : Bool
  isRunning : Bool
  logFileOpen : Bool
  logFile : List String
deriving DecidableEq, Repr

/-- `_write_log`: appends to the log file only while it is open. -/
def writeLog (r : RunnerModel) (msg : String) : RunnerModel :=
  if r.logFileOpen then { r with logFile := r.logFile ++ [msg] } else r

/-- The outcome of `subprocess.Popen` + the output loop: the raw output
lines and exit code, or one of the exceptions `run` catches. -/
inductive SpawnOutcome where
  | ok (lines : List String) (exitCode : Int)
  | fileNotFound (msg : String)
  | raised (msg : String)
deriving DecidableEq, Repr

/-- The signal emitted at the end of `run` (or by `stop`). -/
inductive RunEvent where
  | buildFinished (code : Int)
  | buildFailed (msg : String)
deriving DecidableEq, Repr

/-- Python `line.rstrip('\n\r')` on a `String`. -/
def strRstripNL (s : String) : String :=
  String.mk (rstripNL s.toList)

/-- The output loop body applied to one raw line (`if line:` then strip,
append to the task log, write to the log file, scan for progress). -/
def consumeLine (r : RunnerModel) (line : String) : RunnerModel :=
  if line == "" then r
  else
    let stripped := strRstripNL line
    let r1 := { r with task := handleOutput r.task stripped }
    writeLog r1 stripped

/-- `NuitkaRunner.run`, with `t0` the start instant and `t1` the end
instant.  `logPathPresent` is `task.log_file_path` being set, `logOpenOk`
whether opening it succeeds.  Returns the final runner state and the signal
emitted. -/
def runModel (r0 : RunnerModel) (command : String) (logPathPresent logOpenOk : Bool)
    (spawn : SpawnOutcome) (t0 t1 : Nat) : RunnerModel × Option RunEvent :=
  let r := { r0 with isRunning := true,
                     task := { r0.task with status := .running, startTime := some t0 } }
  if logPathPresent && !logOpenOk then
    ({ r with task := { r.task with status := .failed, endTime := some t1 },
              isRunning := false },
     some (.buildFailed "无法创建日志文件"))
  else
    let r := if logPathPresent then
        let ro := { r with logFileOpen := true }
        writeLog (writeLog (writeLog ro "开始时间") ("命令: " ++ command))
          (String.mk (List.replicate 80 '='))
      else r
    match spawn with
    | .fileNotFound msg =>
      let msg2 := "找不到 Nuitka 程序: " ++ msg
      let r := { r with task := { r.task with status := .failed, endTime := some t1 } }
      let r := writeLog r ("错误: " ++ msg2)
      ({ r with logFileOpen := false, isRunning := false }, some (.buildFailed msg2))
    | .raised msg =>
      let msg2 := "构建过程出错: " ++ msg
      let r := { r with task := { r.task with status := .failed, endTime := some t1 } }
      let r := writeLog r ("错误: " ++ msg2)
      ({ r with logFileOpen := false, isRunning := false }, some (.buildFailed msg2))
    | .ok lines code =>
      let r := { r with hasProcess := true }
      let r := lines.foldl consumeLine r
      let r := { r with task := { r.task with exitCode := some code, endTime := some t1 } }
      if code = 0 then
        let r := { r with task := { r.task with status := .completed } }
        let r := writeLog (writeLog (writeLog r (String.mk (List.replicate 80 '=')))
          ("构建成功! 退出码: " ++ toString code)) "结束时间"
        ({ r with logFileOpen := false, isRunning := false }, some (.buildFinished code))
      else
        let msg := "构建失败,退出码: " ++ toString code
        let r := { r with task := { r.task with status := .failed } }
        let r := writeLog (writeLog (writeLog r (String.mk (List.replicate 80 '='))) msg)
          "结束时间"
        ({ r with logFileOpen := false, isRunning := false }, some (.buildFailed msg))

/-- `NuitkaRunner.stop` at instant `t`: guarded by
`if self.process and self._is_running`; clears `_is_running`, kills the
process tree (external), writes the cancellation notice, closes the log
file, and forces the task to FAILED with an end timestamp. -/
def stopModel (r : RunnerModel) (t : Nat) : RunnerModel :=
  if r.hasProcess && r.isRunning then
    let r1 := writeLog { r with isRunning := false } "构建已取消"
    let r2 := { r1 with logFileOpen := false }
    { r2 with task := { r2.task with status := .failed, endTime := some t } }
  else r

/-! ## `EmbeddedFile.validate` -/

/-- `FileType` from `embedded_files.py` (`DIR` is an alias of `DIRECTORY`,
not a distinct member). -/
inductive FType where
  | file
  | directory
  | pattern
deriving DecidableEq, Repr

/-- The `EmbeddedFile` dataclass. -/
structure EmbeddedFile where
  sourcePath : String
  destinationPath : String
  fileType : FType := .file
  recursive : Bool := false
  pattern : Option String := none
deriving DecidableEq, Repr

/-- Python `not self.pattern`: `None` or the empty string. -/
def patternMissing : Option String → Bool
  | none => true
  | some s => s == ""

/-- `EmbeddedFile.validate`, with `os.path.exists` supplied as the predicate
`fsExists`.  Returns the `(ok, error-message)` pair. -/
def validateEF (fsExists : String → Bool) (f : EmbeddedFile) : Bool × String :=
  if !fsExists f.sourcePath then (false, "源路径不存在: " ++ f.sourcePath)
  else if strHasSub f.destinationPath "\\" then
    (false, "目标路径不能包含反斜杠: " ++ f.destinationPath)
  else if pyBeginsWith f.destinationPath "/" then
    (false, "目标路径不能以/开头: " ++ f.destinationPath)
  else if f.fileType == .pattern && patternMissing f.pattern then
    (false, "PATTERN类型必须指定pattern参数")
  else (true, "")

/-! ## Concrete instances used by the claims -/

/-- The configuration snapshot of the spec's worked example: persisted
`nuitka` keys `lto: "auto"`, `quiet: false`, `output-filename: "app"`, with
runtime overrides `output-dir="C:/out"` and `output-filename="app"` and
entry `main.py`. -/
def cfgC1 : ConfigModel :=
  { pythonPath := "python"
    nuitka := [("lto", .vStr "auto"), ("quiet", .vBool false), ("output-filename", .vStr "app")]
    entryFile := "main.py"
    outputDir := "C:/out"
    outputFilename := "app"
    iconPath := "" }

/-- A configuration whose `company-name` string value contains a double
quote. -/
def cfgC3 : ConfigModel :=
  { pythonPath := "python"
    nuitka := [("company-name", .vStr "a\"b")]
    entryFile := ""
    outputDir := ""
    outputFilename := ""
    iconPath := "" }

/-- A small configuration snapshot used to witness determinism. -/
def cfgC8 : ConfigModel :=
  { pythonPath := "py"
    nuitka := [("jobs", .vInt 4), ("standalone", .vBool true)]
    entryFile := "m.py"
    outputDir := ""
    outputFilename := ""
    iconPath := "" }

/-- A fresh runner on a pending task, as built by `NuitkaRunner.__init__`. -/
def freshRunner : RunnerModel :=
  { task := { status := .pending, startTime := none, endTime := none,
              exitCode := none, progress := 0, logs := [] }
    hasProcess := false
    isRunning := false
    logFileOpen := false
    logFile := [] }

/-! ## Claim C1 -/

/-- C1 counterexample: on the spec's own example configuration, the command
produced by `Config.to_command` does not end in
`--output-dir="C:/out" --output-filename="app.exe" main.py` — the quoted
flag `--output-dir="C:/out"` does not occur in it at all, because
`_quote_path` and its callers never add surrounding quotes; and the claimed
tail fails even unquoted, because the generic key loop re-emits the
persisted `output-filename` key between the runtime flags and the entry
positional. -/
theorem C1_counterexample :
    pyEndsWith (toCommand cfgC1)
      "--output-dir=\"C:/out\" --output-filename=\"app.exe\" main.py" = false
    ∧ strHasSub (toCommand cfgC1) "--output-dir=\"C:/out\"" = false
    ∧ pyEndsWith (toCommand cfgC1)
      "--output-dir=C:/out --output-filename=app.exe main.py" = false := by
  decide

/-- C1 amended: the example configuration compiles to exactly
`python -m nuitka --output-dir=C:/out --output-filename=app.exe
--output-filename=app main.py` — runtime flags are unquoted, the `.exe`
suffix is forced on the runtime filename, the persisted `output-filename`
key is emitted a second time by the generic key loop before the entry
positional, and no `--lto` or `--quiet` flag appears (both values are in
the absent-sentinel set). -/
theorem C1_amended :
    toCommand cfgC1 =
      "python -m nuitka --output-dir=C:/out --output-filename=app.exe --output-filename=app main.py"
    ∧ strHasSub (toCommand cfgC1) "--lto" = false
    ∧ strHasSub (toCommand cfgC1) "--quiet" = false := by
  decide

/-! ## Claim C3 -/

/-- C3: for the string value `a"b` the emitted flag is
`--company-name=a\"b` with no surrounding quotes; re-tokenizing the full
command with `NuitkaRunner._parse_command` (shlex, `posix=False`) yields
the token `--company-name=a\"b`, so the original value `a"b` is **not**
recovered — the escaped form is.  This falsifies the claimed round-trip. -/
theorem C3_no_roundtrip :
    toCommand cfgC3 = "python -m nuitka --company-name=a\\\"b"
    ∧ parseCommand (toCommand cfgC3) = ["python", "-m", "nuitka", "--company-name=a\\\"b"]
    ∧ ¬ ("--company-name=a\"b" ∈ parseCommand (toCommand cfgC3)) := by
  decide

/-! ## Claim C8 -/

/-- C8: `to_command` is a pure function of the configuration snapshot and
the four runtime overrides (all of which are `ConfigModel` fields): in the
embedding it takes no clock, environment or ordering input, so two calls on
equal snapshots give byte-identical command strings. -/
theorem C8_deterministic (c1 c2 : ConfigModel) (h : c1 = c2) :
    toCommand c1 = toCommand c2 :=
  congrArg toCommand h

/-- C8 witness: the determinism theorem applied to a concrete snapshot. -/
theorem C8_witness : toCommand cfgC8 = toCommand cfgC8 :=
  C8_deterministic cfgC8 cfgC8 rfl

/-! ## Claim C10 -/

/-- C10: `EmbeddedFile.validate` accepts an empty destination path: when the
source path exists and the type is not PATTERN (or has a non-empty
pattern), an empty destination passes the backslash check and the
leading-slash check and `validate` returns `(True, "")`. -/
theorem C10_empty_destination (fs : String → Bool) (f : EmbeddedFile)
    (hsrc : fs f.sourcePath = true)
    (hdest : f.destinationPath = "")
    (hpat : f.fileType ≠ .pattern ∨ patternMissing f.pattern = false) :
    validateEF fs f = (true, "") := by
  have h1 : strHasSub "" "\\" = false := by decide
  have h2 : pyBeginsWith "" "/" = false := by decide
  have h3 : (f.fileType == FType.pattern && patternMissing f.pattern) = false := by
    rcases hpat with hp | hp
    · have : (f.fileType == FType.pattern) = false := by
        simp only [beq_eq_false_iff_ne, ne_eq]
        exact hp
      simp [this]
    · simp [hp]
  simp [validateEF, hsrc, hdest, h1, h2, h3]

/-- C10 witness: a FILE-typed embedded file with existing source and empty
destination validates successfully. -/
theorem C10_witness :
    validateEF (fun _ => true)
      { sourcePath := "data.json", destinationPath := "", fileType := .file,
        recursive := false, pattern := none } = (true, "") :=
  C10_empty_destination (fun _ => true)
    { sourcePath := "data.json", destinationPath := "", fileType := .file,
      recursive := false, pattern := none }
    rfl rfl (Or.inl (by decide))

/-! ## Claim C7 -/

/-- C7: when the log file disappears between polls the tailer resets its
offset to 0 and clears the existence flag; a poll on a file the tailer has
not yet seen behaves exactly like a poll from offset 0 (the stale offset is
not carried over); and a poll observing a file size at most the stored
offset delivers nothing and leaves the state unchanged. -/
theorem C7_offset_reset (st : TailState) (p : Nat) (c : List Char) :
    (st.logFileExists = true → readNewLogs st none = (⟨0, false⟩, none))
    ∧ readNewLogs ⟨p, false⟩ (some c) = readNewLogs ⟨0, true⟩ (some c)
    ∧ (st.logFileExists = true → c.length ≤ st.lastPosition →
        readNewLogs st (some c) = (st, none)) := by
  refine ⟨fun h => by simp [readNewLogs, h], by simp [readNewLogs], fun h hle => ?_⟩
  simp only [readNewLogs, h, if_true]
  rw [if_pos (Or.inr hle)]

/-- C7 witness: a deletion poll, a recreation poll equal to a from-zero
poll, and a no-growth poll delivering nothing. -/
theorem C7_witness :
    readNewLogs ⟨5, true⟩ none = (⟨0, false⟩, none)
    ∧ readNewLogs ⟨7, false⟩ (some ['x']) = readNewLogs ⟨0, true⟩ (some ['x'])
    ∧ readNewLogs ⟨3, true⟩ (some ['a', 'b']) = (⟨3, true⟩, none) :=
  ⟨(C7_offset_reset ⟨5, true⟩ 0 []).1 rfl,
   (C7_offset_reset ⟨5, true⟩ 7 ['x']).2.1,
   (C7_offset_reset ⟨3, true⟩ 0 ['a', 'b']).2.2 rfl (by decide)⟩

/-! ## Claims C5 and C6 -/

/-- `_write_log` only touches the log file, not the task. -/
theorem writeLog_task (r : RunnerModel) (msg : String) : (writeLog r msg).task = r.task := by
  unfold writeLog; split <;> rfl

/-- `_write_log` does not change `_is_running`. -/
theorem writeLog_isRunning (r : RunnerModel) (msg : String) :
    (writeLog r msg).isRunning = r.isRunning := by
  unfold writeLog; split <;> rfl

/-- `_write_log` does not change `self.process`. -/
theorem writeLog_hasProcess (r : RunnerModel) (msg : String) :
    (writeLog r msg).hasProcess = r.hasProcess := by
  unfold writeLog; split <;> rfl

/-- `_write_log` does not change the open flag. -/
theorem writeLog_logFileOpen (r : RunnerModel) (msg : String) :
    (writeLog r msg).logFileOpen = r.logFileOpen := by
  unfold writeLog; split <;> rfl

/-- `run` always clears `_is_running` before returning (early return or the
`finally` block). -/
theorem runModel_not_running (r0 : RunnerModel) (cmd : String) (lp lo : Bool)
    (spawn : SpawnOutcome) (t0 t1 : Nat) :
    (runModel r0 cmd lp lo spawn t0 t1).1.isRunning = false := by
  unfold runModel
  cases spawn <;> cases lp <;> cases lo <;>
    simp [writeLog_isRunning] <;> split <;> simp

/-- C5: with a usable log file, a spawned process exiting 0 drives the task
to COMPLETED with an end timestamp; a non-zero exit drives it to FAILED
with the descriptive exit-code message emitted via `build_failed`; and both
spawn exception classes (`FileNotFoundError` and any other exception) are
caught and reported as FAILED with a `build_failed` message — `runModel` is
total, so no error escapes. -/
theorem C5_exit_handling (r0 : RunnerModel) (cmd : String) (lp lo : Bool)
    (t0 t1 : Nat) (hlog : lp = true → lo = true) :
    (∀ lines, (runModel r0 cmd lp lo (.ok lines 0) t0 t1).1.task.status = .completed
      ∧ (runModel r0 cmd lp lo (.ok lines 0) t0 t1).1.task.endTime = some t1)
    ∧ (∀ lines (code : Int), code ≠ 0 →
        (runModel r0 cmd lp lo (.ok lines code) t0 t1).1.task.status = .failed
        ∧ (runModel r0 cmd lp lo (.ok lines code) t0 t1).2
            = some (.buildFailed ("构建失败,退出码: " ++ toString code)))
    ∧ (∀ msg, (runModel r0 cmd lp lo (.fileNotFound msg) t0 t1).1.task.status = .failed
        ∧ ∃ e, (runModel r0 cmd lp lo (.fileNotFound msg) t0 t1).2
            = some (.buildFailed e))
    ∧ (∀ msg, (runModel r0 cmd lp lo (.raised msg) t0 t1).1.task.status = .failed
        ∧ ∃ e, (runModel r0 cmd lp lo (.raised msg) t0 t1).2
            = some (.buildFailed e)) := by
  refine ⟨fun lines => ?_, fun lines code hc => ?_, fun msg => ?_, fun msg => ?_⟩
  · cases lp with
    | false => simp [runModel, writeLog_task]
    | true => simp [runModel, hlog rfl, writeLog_task]
  · cases lp with
    | false => simp [runModel, hc, writeLog_task]
    | true => simp [runModel, hlog rfl, hc, writeLog_task]
  · cases lp <;> cases lo <;> simp_all [runModel, writeLog_task]
  · cases lp <;> cases lo <;> simp_all [runModel, writeLog_task]

/-- C5 witness: the theorem applied with no log file configured, a clean
exit and a failing exit. -/
theorem C5_witness :
    ((runModel freshRunner "cmd" false false (.ok ["done\n"] 0) 0 1).1.task.status
        = .completed
      ∧ (runModel freshRunner "cmd" false false (.ok ["done\n"] 0) 0 1).1.task.endTime
        = some 1)
    ∧ ((runModel freshRunner "cmd" false false (.ok [] 1) 0 1).1.task.status = .failed
      ∧ (runModel freshRunner "cmd" false false (.ok [] 1) 0 1).2
        = some (.buildFailed ("构建失败,退出码: " ++ toString (1 : Int)))) :=
  ⟨(C5_exit_handling freshRunner "cmd" false false 0 1 (by decide)).1 ["done\n"],
   (C5_exit_handling freshRunner "cmd" false false 0 1 (by decide)).2.1 [] 1 (by decide)⟩

/-- C6: `stop` on a running build (process present, `_is_running` set)
forces the task to FAILED with an end timestamp, whatever the exit code
recorded in the task; `stop` while not running is a complete no-op (same
task, timestamps and log file), hence a second `stop` is idempotent; and
since `run` always clears `_is_running` on exit, `stop` after the run has
finished changes nothing — in particular a COMPLETED task stays
COMPLETED. -/
theorem C6_stop_semantics :
    (∀ (r : RunnerModel) (t : Nat), r.hasProcess = true → r.isRunning = true →
      (stopModel r t).task.status = .failed
      ∧ (stopModel r t).task.endTime = some t
      ∧ (stopModel r t).isRunning = false)
    ∧ (∀ (r : RunnerModel) (t : Nat), r.isRunning = false → stopModel r t = r)
    ∧ (∀ (r : RunnerModel) (t t' : Nat), stopModel (stopModel r t) t' = stopModel r t)
    ∧ (∀ (r0 : RunnerModel) (cmd : String) (lp lo : Bool) (spawn : SpawnOutcome)
        (t0 t1 t : Nat),
        stopModel (runModel r0 cmd lp lo spawn t0 t1).1 t
          = (runModel r0 cmd lp lo spawn t0 t1).1) := by
  have hstop1 : ∀ (r : RunnerModel) (t : Nat), r.hasProcess = true → r.isRunning = true →
      (stopModel r t).task.status = .failed
      ∧ (stopModel r t).task.endTime = some t
      ∧ (stopModel r t).isRunning = false := by
    intro r t h1 h2
    simp [stopModel, h1, h2, writeLog]
    split <;> simp
  have hnoop : ∀ (r : RunnerModel) (t : Nat), r.isRunning = false → stopModel r t = r := by
    intro r t h
    simp [stopModel, h]
  have hidem : ∀ (r : RunnerModel) (t t' : Nat),
      stopModel (stopModel r t) t' = stopModel r t := by
    intro r t t'
    by_cases h : (r.hasProcess && r.isRunning) = true
    · obtain ⟨hp, hR⟩ := Bool.and_eq_true_iff.mp h
      exact hnoop _ _ ((hstop1 r t hp hR).2.2)
    · have hr : ∀ s : Nat, stopModel r s = r := fun s => by simp [stopModel, h]
      rw [hr, hr]
  refine ⟨hstop1, hnoop, hidem, fun r0 cmd lp lo spawn t0 t1 t => ?_⟩
  exact hnoop _ _ (runModel_not_running r0 cmd lp lo spawn t0 t1)

/-- C6 witness: `stop` on a concrete running build, and `stop` as a no-op
on a concrete stopped runner. -/
theorem C6_witness :
    ((stopModel { freshRunner with hasProcess := true, isRunning := true } 7).task.status
        = .failed
      ∧ (stopModel { freshRunner with hasProcess := true, isRunning := true } 7).task.endTime
        = some 7)
    ∧ stopModel freshRunner 3 = freshRunner :=
  ⟨⟨(C6_stop_semantics.1 { freshRunner with hasProcess := true, isRunning := true } 7
        rfl rfl).1,
    (C6_stop_semantics.1 { freshRunner with hasProcess := true, isRunning := true } 7
        rfl rfl).2.1⟩,
   C6_stop_semantics.2.1 freshRunner 3 rfl⟩

/-! ## Claim C4 -/

/-- `dropWhile` is the identity when no element satisfies the predicate. -/
theorem dropWhile_eq_self_of_none {p : Char → Bool} :
    ∀ {l : List Char}, (∀ c ∈ l, p c = false) → l.dropWhile p = l := by
  intro l h
  cases l with
  | nil => rfl
  | cons c cs =>
    rw [List.dropWhile_cons, h c (List.mem_cons_self c cs)]
    simp

/-- `rstrip('\n\r')` of a newline-terminated line whose body contains no
newline or carriage return gives back the body. -/
theorem rstripNL_append_newline {l : List Char} (hn : '\n' ∉ l) (hr : '\r' ∉ l) :
    rstripNL (l ++ ['\n']) = l := by
  unfold rstripNL
  rw [List.reverse_append]
  simp only [List.reverse_cons, List.reverse_nil, List.nil_append, List.singleton_append]
  rw [List.dropWhile_cons]
  have h1 : (('\n' : Char) == '\n' || ('\n' : Char) == '\r') = true := by decide
  rw [h1]
  simp only [if_true]
  rw [dropWhile_eq_self_of_none, List.reverse_reverse]
  intro c hc
  have hcl : c ∈ l := List.mem_reverse.mp hc
  have hcn : c ≠ '\n' := fun he => hn (he ▸ hcl)
  have hcr : c ≠ '\r' := fun he => hr (he ▸ hcl)
  simp [hcn, hcr]

/-- `readlines` on a buffer starting with a newline-free line and its
terminator peels off exactly that line. -/
theorem readlinesAux_line {l : List Char} (rest acc : List Char) (h : '\n' ∉ l) :
    readlinesAux (l ++ '\n' :: rest) acc
      = (acc.reverse ++ l ++ ['\n']) :: readlinesAux rest [] := by
  induction l generalizing acc with
  | nil => simp [readlinesAux]
  | cons c cs ih =>
    have hc : c ≠ '\n' := fun he => h (he ▸ List.mem_cons_self c cs)
    have hcs : '\n' ∉ cs := fun hm => h (List.mem_cons_of_mem c hm)
    simp only [List.cons_append, readlinesAux, beq_iff_eq, hc, if_false, List.append_eq]
    rw [ih (c :: acc) hcs]
    simp

/-- `readlines` recovers the lines of a buffer that is a concatenation of
newline-terminated, newline-free lines. -/
theorem pyReadlines_flatten :
    ∀ (lines : List (List Char)), (∀ l ∈ lines, '\n' ∉ l) →
    pyReadlines ((lines.map (fun l => l ++ ['\n'])).flatten)
      = lines.map (fun l => l ++ ['\n']) := by
  intro lines
  induction lines with
  | nil => intro _; rfl
  | cons l ls ih =>
    intro h
    have hl : '\n' ∉ l := h l (List.mem_cons_self l ls)
    have hls : ∀ x ∈ ls, '\n' ∉ x := fun x hx => h x (List.mem_cons_of_mem l hx)
    simp only [List.map_cons, List.flatten_cons]
    unfold pyReadlines
    rw [List.append_assoc, List.singleton_append, readlinesAux_line _ _ hl]
    simp only [List.reverse_nil, List.nil_append]
    rw [← pyReadlines, ih hls]

/-- C4 amended: if the file (whose stored offset sits at the old
end-of-file) grows by the newline-terminated lines `lines`, one poll sets
the stored offset to the new end-of-file byte position and delivers exactly
one batch consisting of the non-empty stripped lines — or no event at all
when every new line is empty after stripping. -/
theorem C4_batch (old growth : List Char) (lines : List (List Char))
    (hg : growth = (lines.map (fun l => l ++ ['\n'])).flatten)
    (hclean : ∀ l ∈ lines, '\n' ∉ l ∧ '\r' ∉ l)
    (hne : lines ≠ []) :
    (readNewLogs ⟨old.length, true⟩ (some (old ++ growth))).1.lastPosition
      = (old ++ growth).length
    ∧ (readNewLogs ⟨old.length, true⟩ (some (old ++ growth))).2
      = (if (lines.filter (fun l => !l.isEmpty)).isEmpty then none
         else some (lines.filter (fun l => !l.isEmpty))) := by
  have hglen : 0 < growth.length := by
    subst hg
    cases lines with
    | nil => exact absurd rfl hne
    | cons l ls =>
      simp only [List.map_cons, List.flatten_cons, List.length_append, List.length_cons,
        List.length_nil]
      omega
  have hsize : ¬((old ++ growth).length = 0 ∨ (old ++ growth).length ≤ old.length) := by
    rw [List.length_append]
    push_neg
    omega
  have hdrop : (old ++ growth).drop old.length = growth := List.drop_left old growth
  have hlines : pyReadlines ((old ++ growth).drop old.length)
      = lines.map (fun l => l ++ ['\n']) := by
    rw [hdrop, hg]
    exact pyReadlines_flatten lines (fun l hl => (hclean l hl).1)
  have hmapne : ((lines.map (fun l => l ++ ['\n'])).isEmpty = true) = False := by
    cases lines with
    | nil => exact absurd rfl hne
    | cons l ls => simp
  have hmapstrip : (lines.map (fun l => l ++ ['\n'])).map rstripNL = lines := by
    rw [List.map_map]
    have hpt : ∀ l ∈ lines, (rstripNL ∘ fun l => l ++ ['\n']) l = id l := fun l hl =>
      rstripNL_append_newline (hclean l hl).1 (hclean l hl).2
    rw [List.map_congr_left hpt, List.map_id]
  have hbig : readNewLogs ⟨old.length, true⟩ (some (old ++ growth))
      = (⟨(old ++ growth).length, true⟩,
         if (lines.filter (fun l => !l.isEmpty)).isEmpty then none
         else some (lines.filter (fun l => !l.isEmpty))) := by
    simp only [readNewLogs, if_true, hlines, hmapne, hmapstrip]
    rw [if_neg hsize]
    simp only [hmapne, if_false]
    by_cases hc : (lines.filter (fun l => !l.isEmpty)).isEmpty = true
    · rw [if_pos hc, if_pos hc]
    · rw [if_neg hc, if_neg hc]
  rw [hbig]
  exact ⟨rfl, rfl⟩

/-- C4 counterexample: a file that grows by exactly one line consisting of a
bare newline produces **no** batch event at all (the stripped line is empty
and the emit is guarded by `if filtered_lines:`), not "exactly one batch
event" — the offset is still advanced to end of file. -/
theorem C4_counterexample :
    readNewLogs ⟨0, true⟩ (some ['\n']) = (⟨1, true⟩, none) := by
  decide

/-- C4 witness: a file growing by the single line `hi` delivers exactly one
batch `[hi]` and the offset moves to the new end of file. -/
theorem C4_witness :
    (readNewLogs ⟨0, true⟩ (some "hi\n".toList)).1.lastPosition = "hi\n".toList.length
    ∧ (readNewLogs ⟨0, true⟩ (some "hi\n".toList)).2 = some [['h', 'i']] :=
  C4_batch [] "hi\n".toList [['h', 'i']] (by decide) (by decide) (by decide)

/-! ## Claims C2 and C9: lemmas about `docUpdate`, `docSelect` and the
flag-detection fold -/

/-- Selecting the updated key yields the new value. -/
theorem docSelect_docUpdate_self (d : Doc) (k : String) (v : Value) :
    docSelect (docUpdate d k v) k = some v := by
  induction d with
  | nil => simp [docUpdate, docSelect]
  | cons kv rest ih =>
    by_cases h : kv.1 = k
    · simp [docUpdate, h, docSelect]
    · simp [docUpdate, h, docSelect, ih]

/-- Updating one key leaves every other key's value unchanged. -/
theorem docSelect_docUpdate_ne (d : Doc) (k k' : String) (v : Value) (h : k' ≠ k) :
    docSelect (docUpdate d k v) k' = docSelect d k' := by
  induction d with
  | nil =>
    have hne : ¬k = k' := fun he => h he.symm
    simp [docUpdate, docSelect, hne]
  | cons kv rest ih =>
    by_cases hk : kv.1 = k
    · have hne : ¬k = k' := fun he => h he.symm
      simp [docUpdate, hk, docSelect, hne]
    · simp only [docUpdate, hk, if_false, docSelect]
      by_cases hk' : kv.1 = k'
      · simp [hk']
      · simp [hk', ih]

/-- `findKeyPair` on a key containing `standalone`. -/
theorem findKeyPair_sa (p : Option String × Option String) (k : String)
    (h : strHasSub k "standalone" = true) : findKeyPair p k = (some k, p.2) := by
  unfold findKeyPair
  rw [if_pos h]

/-- `findKeyPair` on a key containing `onefile` but not `standalone`. -/
theorem findKeyPair_of (p : Option String × Option String) (k : String)
    (h1 : strHasSub k "standalone" = false) (h2 : strHasSub k "onefile" = true) :
    findKeyPair p k = (p.1, some k) := by
  unfold findKeyPair
  rw [h1, h2]
  simp

/-- `findKeyPair` on a key containing neither substring. -/
theorem findKeyPair_skip (p : Option String × Option String) (k : String)
    (h1 : strHasSub k "standalone" = false) (h2 : strHasSub k "onefile" = false) :
    findKeyPair p k = p := by
  unfold findKeyPair
  rw [h1, h2]
  simp

/-- If the update fold's final first component is `none`, it started as
`none` and no folded key contains the substring `standalone`. -/
theorem foldDetect_fst_none :
    ∀ (ks : List String) (p : Option String × Option String),
      (ks.foldl findKeyPair p).1 = none →
      p.1 = none ∧ ∀ k ∈ ks, strHasSub k "standalone" = false := by
  intro ks
  induction ks with
  | nil => exact fun p h => ⟨h, by simp⟩
  | cons k rest ih =>
    intro p h
    rw [List.foldl_cons] at h
    obtain ⟨h1, h2⟩ := ih _ h
    by_cases hs : strHasSub k "standalone" = true
    · rw [findKeyPair_sa p k hs] at h1
      exact absurd h1 (by simp)
    · have hs' : strHasSub k "standalone" = false := Bool.eq_false_iff.mpr hs
      have hp : p.1 = none := by
        by_cases ho : strHasSub k "onefile" = true
        · rw [findKeyPair_of p k hs' ho] at h1; exact h1
        · rw [findKeyPair_skip p k hs' (Bool.eq_false_iff.mpr ho)] at h1; exact h1
      refine ⟨hp, fun k' hk' => ?_⟩
      rcases List.mem_cons.mp hk' with rfl | hmem
      · exact hs'
      · exact h2 k' hmem

/-- The update fold's final first component is either untouched or the last
folded key containing the substring `standalone`. -/
theorem foldDetect_fst_sub :
    ∀ (ks : List String) (p : Option String × Option String),
      (ks.foldl findKeyPair p).1 = p.1
      ∨ ∃ k ∈ ks, (ks.foldl findKeyPair p).1 = some k
          ∧ strHasSub k "standalone" = true := by
  intro ks
  induction ks with
  | nil => exact fun p => Or.inl rfl
  | cons k rest ih =>
    intro p
    rw [List.foldl_cons]
    rcases ih (findKeyPair p k) with h | ⟨k', hk', h1, h2⟩
    · by_cases hs : strHasSub k "standalone" = true
      · rw [findKeyPair_sa p k hs] at h
        refine Or.inr ⟨k, List.mem_cons_self k rest, ?_, hs⟩
        rw [findKeyPair_sa p k hs]
        exact h
      · have hs' : strHasSub k "standalone" = false := Bool.eq_false_iff.mpr hs
        refine Or.inl ?_
        by_cases ho : strHasSub k "onefile" = true
        · rw [findKeyPair_of p k hs' ho] at h ⊢
          exact h
        · rw [findKeyPair_skip p k hs' (Bool.eq_false_iff.mpr ho)] at h ⊢
          exact h
    · exact Or.inr ⟨k', List.mem_cons_of_mem k hk', h1, h2⟩

/-- If the update fold's final second component is `none`, it started as
`none` and every folded key free of `standalone` is also free of
`onefile`. -/
theorem foldDetect_snd_none :
    ∀ (ks : List String) (p : Option String × Option String),
      (ks.foldl findKeyPair p).2 = none →
      p.2 = none ∧ ∀ k ∈ ks, strHasSub k "standalone" = false →
        strHasSub k "onefile" = false := by
  intro ks
  induction ks with
  | nil => exact fun p h => ⟨h, by simp⟩
  | cons k rest ih =>
    intro p h
    rw [List.foldl_cons] at h
    obtain ⟨h1, h2⟩ := ih _ h
    by_cases hs : strHasSub k "standalone" = true
    · rw [findKeyPair_sa p k hs] at h1
      refine ⟨h1, fun k' hk' hsa => ?_⟩
      rcases List.mem_cons.mp hk' with rfl | hmem
      · exact absurd hs (by rw [hsa]; simp)
      · exact h2 k' hmem hsa
    · have hs' : strHasSub k "standalone" = false := Bool.eq_false_iff.mpr hs
      by_cases ho : strHasSub k "onefile" = true
      · rw [findKeyPair_of p k hs' ho] at h1
        exact absurd h1 (by simp)
      · rw [findKeyPair_skip p k hs' (Bool.eq_false_iff.mpr ho)] at h1
        refine ⟨h1, fun k' hk' hsa => ?_⟩
        rcases List.mem_cons.mp hk' with rfl | hmem
        · exact Bool.eq_false_iff.mpr ho
        · exact h2 k' hmem hsa

/-- The update fold's final second component is either untouched or the
last folded key that contains `onefile` but not `standalone`. -/
theorem foldDetect_snd_sub :
    ∀ (ks : List String) (p : Option String × Option String),
      (ks.foldl findKeyPair p).2 = p.2
      ∨ ∃ k ∈ ks, (ks.foldl findKeyPair p).2 = some k
          ∧ strHasSub k "standalone" = false ∧ strHasSub k "onefile" = true := by
  intro ks
  induction ks with
  | nil => exact fun p => Or.inl rfl
  | cons k rest ih =>
    intro p
    rw [List.foldl_cons]
    rcases ih (findKeyPair p k) with h | ⟨k', hk', h1, h2, h3⟩
    · by_cases hs : strHasSub k "standalone" = true
      · refine Or.inl ?_
        rw [findKeyPair_sa p k hs] at h ⊢
        exact h
      · have hs' : strHasSub k "standalone" = false := Bool.eq_false_iff.mpr hs
        by_cases ho : strHasSub k "onefile" = true
        · rw [findKeyPair_of p k hs' ho] at h
          refine Or.inr ⟨k, List.mem_cons_self k rest, ?_, hs', ho⟩
          rw [findKeyPair_of p k hs' ho]
          exact h
        · have ho' : strHasSub k "onefile" = false := Bool.eq_false_iff.mpr ho
          refine Or.inl ?_
          rw [findKeyPair_skip p k hs' ho'] at h ⊢
          exact h
    · exact Or.inr ⟨k', List.mem_cons_of_mem k hk', h1, h2, h3⟩

/-- When every `standalone`-containing key is the canonical flag key and
that key is present, the detection fold finds it. -/
theorem foldDetect_fst_canonical (ks : List String)
    (hall : ∀ k ∈ ks, strHasSub k "standalone" = true → k = "nuitka.standalone")
    (hmem : "nuitka.standalone" ∈ ks) :
    (ks.foldl findKeyPair (none, none)).1 = some "nuitka.standalone" := by
  rcases foldDetect_fst_sub ks (none, none) with h | ⟨k, hk, h1, h2⟩
  · obtain ⟨_, hnone⟩ := foldDetect_fst_none ks (none, none) h
    exact absurd (hnone _ hmem) (by decide)
  · rw [h1, hall k hk h2]

/-- When every `onefile`-containing key is the canonical flag key and that
key is present, the detection fold finds it. -/
theorem foldDetect_snd_canonical (ks : List String)
    (hall : ∀ k ∈ ks, strHasSub k "onefile" = true → k = "nuitka.onefile")
    (hmem : "nuitka.onefile" ∈ ks) :
    (ks.foldl findKeyPair (none, none)).2 = some "nuitka.onefile" := by
  rcases foldDetect_snd_sub ks (none, none) with h | ⟨k, hk, h1, _, h3⟩
  · obtain ⟨_, hnone⟩ := foldDetect_snd_none ks (none, none) h
    exact absurd (hnone _ hmem (by decide)) (by decide)
  · rw [h1, hall k hk h3]


/-- `kwargs.get` of a present key under unique keys. -/
theorem kwargsGet_of_mem :
    ∀ (kwargs : List (String × Value)) (k : String) (v : Value),
      (kwargs.map Prod.fst).Nodup → (k, v) ∈ kwargs →
      kwargsGet kwargs k = some v := by
  intro kwargs
  induction kwargs with
  | nil => intro k v _ hmem; cases hmem
  | cons kv rest ih =>
    intro k v hnodup hmem
    rw [List.map_cons, List.nodup_cons] at hnodup
    by_cases h : (kv.1 == k) = true
    · have hk : kv.1 = k := beq_iff_eq.mp h
      have hp : (fun x : String × Value => x.1 == k) kv = true := h
      unfold kwargsGet
      rw [List.find?_cons_of_pos rest hp]
      rcases List.mem_cons.mp hmem with he | hmem'
      · rw [← he]
        rfl
      · exfalso
        exact hnodup.1 (hk ▸ List.mem_map_of_mem Prod.fst hmem' : kv.1 ∈ rest.map Prod.fst)
    · have hp : ¬((fun x : String × Value => x.1 == k) kv = true) := h
      unfold kwargsGet
      rw [List.find?_cons_of_neg rest hp]
      rcases List.mem_cons.mp hmem with he | hmem'
      · exfalso
        exact h (by rw [← he]; exact beq_self_eq_true k)
      · exact ih k v hnodup.2 hmem'

/-! ## Claim C2 -/

/-- C2 counterexample: `Config.update` detects the mode flags by substring
match over the kwargs keys, last match winning.  In the call
`update(**{"nuitka.standalone": True, "prestandalone": False})` on a
document with `nuitka.onefile: true`, the unrelated key `prestandalone`
(which contains the substring `standalone`) shadows the flag key, the
mutual-exclusion block is skipped, and the resulting document has **both**
`nuitka.standalone` and `nuitka.onefile` true — refuting the claim as
stated for this `Config.update` call. -/
theorem C2_counterexample :
    optTruthy (docSelect (configUpdate [("nuitka.onefile", Value.vBool true)]
      [("nuitka.standalone", Value.vBool true), ("prestandalone", Value.vBool false)])
      "nuitka.standalone") = true
    ∧ optTruthy (docSelect (configUpdate [("nuitka.onefile", Value.vBool true)]
      [("nuitka.standalone", Value.vBool true), ("prestandalone", Value.vBool false)])
      "nuitka.onefile") = true := by
  decide

/-- C2 amended: provided the only kwargs keys containing the substrings
`standalone` / `onefile` are the canonical flag keys `nuitka.standalone` /
`nuitka.onefile` (which is how every caller in the repository invokes
`update`), setting either flag to `True` forces the other flag to be
non-truthy in the resulting document — whether or not the other flag is
updated in the same call or was already set — and hence at most one of the
two mode flags is true after such an update. -/
theorem C2_mutual_exclusion (d : Doc) (kwargs : List (String × Value))
    (hsa : ∀ kv ∈ kwargs, strHasSub kv.1 "standalone" = true →
      kv.1 = "nuitka.standalone")
    (hof : ∀ kv ∈ kwargs, strHasSub kv.1 "onefile" = true → kv.1 = "nuitka.onefile")
    (hnodup : (kwargs.map Prod.fst).Nodup) :
    (("nuitka.standalone", Value.vBool true) ∈ kwargs →
      optTruthy (docSelect (configUpdate d kwargs) "nuitka.onefile") = false)
    ∧ (("nuitka.onefile", Value.vBool true) ∈ kwargs →
      optTruthy (docSelect (configUpdate d kwargs) "nuitka.standalone") = false)
    ∧ ((("nuitka.standalone", Value.vBool true) ∈ kwargs
        ∨ ("nuitka.onefile", Value.vBool true) ∈ kwargs) →
      ¬(optTruthy (docSelect (configUpdate d kwargs) "nuitka.standalone") = true
        ∧ optTruthy (docSelect (configUpdate d kwargs) "nuitka.onefile") = true)) := by
  have hsa' : ∀ k ∈ kwargs.map Prod.fst, strHasSub k "standalone" = true →
      k = "nuitka.standalone" := by
    intro k hk hs
    obtain ⟨kv, hkv, rfl⟩ := List.mem_map.mp hk
    exact hsa kv hkv hs
  have hof' : ∀ k ∈ kwargs.map Prod.fst, strHasSub k "onefile" = true →
      k = "nuitka.onefile" := by
    intro k hk hs
    obtain ⟨kv, hkv, rfl⟩ := List.mem_map.mp hk
    exact hof kv hkv hs
  have main1 : ("nuitka.standalone", Value.vBool true) ∈ kwargs →
      optTruthy (docSelect (configUpdate d kwargs) "nuitka.onefile") = false := by
    intro hmem
    have hks1 : ((kwargs.map Prod.fst).foldl findKeyPair (none, none)).1
        = some "nuitka.standalone" :=
      foldDetect_fst_canonical _ hsa' (List.mem_map_of_mem Prod.fst hmem)
    have hget : kwargsGet kwargs "nuitka.standalone" = some (Value.vBool true) :=
      kwargsGet_of_mem kwargs _ _ hnodup hmem
    simp only [configUpdate, hks1, hget]
    rcases foldDetect_snd_sub (kwargs.map Prod.fst) (none, none) with h2 | ⟨k, hk, h2, _, h4⟩
    · simp only [h2]
      by_cases ht : optTruthy (docSelect
          (kwargs.foldl (fun acc kv => docUpdate acc kv.1 kv.2) d) "nuitka.onefile") = true
      · rw [if_pos ht, docSelect_docUpdate_self]
        rfl
      · rw [if_neg ht]
        exact Bool.eq_false_iff.mpr ht
    · have h2' : ((kwargs.map Prod.fst).foldl findKeyPair (none, none)).2
          = some "nuitka.onefile" := by rw [h2, hof' k hk h4]
      simp only [h2']
      split
      · rw [docSelect_docUpdate_ne _ _ _ _ (by decide), docSelect_docUpdate_self]
        rfl
      · rw [docSelect_docUpdate_self]
        rfl
  have main2 : ("nuitka.onefile", Value.vBool true) ∈ kwargs →
      optTruthy (docSelect (configUpdate d kwargs) "nuitka.standalone") = false := by
    intro hmem
    have hks2 : ((kwargs.map Prod.fst).foldl findKeyPair (none, none)).2
        = some "nuitka.onefile" :=
      foldDetect_snd_canonical _ hof' (List.mem_map_of_mem Prod.fst hmem)
    have hget : kwargsGet kwargs "nuitka.onefile" = some (Value.vBool true) :=
      kwargsGet_of_mem kwargs _ _ hnodup hmem
    simp only [configUpdate, hks2, hget]
    rcases foldDetect_fst_sub (kwargs.map Prod.fst) (none, none) with h2 | ⟨k, hk, h2, h3⟩
    · simp only [h2]
      by_cases ht : optTruthy (docSelect
          (kwargs.foldl (fun acc kv => docUpdate acc kv.1 kv.2) d) "nuitka.standalone") = true
      · rw [if_pos ht, docSelect_docUpdate_self]
        rfl
      · rw [if_neg ht]
        exact Bool.eq_false_iff.mpr ht
    · have h2' : ((kwargs.map Prod.fst).foldl findKeyPair (none, none)).1
          = some "nuitka.standalone" := by rw [h2, hsa' k hk h3]
      simp only [h2']
      rw [docSelect_docUpdate_self]
      rfl
  refine ⟨main1, main2, ?_⟩
  rintro (hmem | hmem) ⟨hs, ho⟩
  · rw [main1 hmem] at ho
    cases ho
  · rw [main2 hmem] at hs
    cases hs

/-- C2 witness: the amended theorem applied to a concrete document with
`nuitka.onefile` true and the single-flag call setting `nuitka.standalone`
to `True`. -/
theorem C2_witness :
    optTruthy (docSelect (configUpdate [("nuitka.onefile", Value.vBool true)]
      [("nuitka.standalone", Value.vBool true)]) "nuitka.onefile") = false :=
  (C2_mutual_exclusion [("nuitka.onefile", Value.vBool true)]
    [("nuitka.standalone", Value.vBool true)]
    (by decide) (by decide) (by decide)).1 (List.mem_singleton.mpr rfl)

/-! ## Claim C9 -/

/-- C9: a `Config.update` call that sets a mode flag to `False` skips the
mutual-exclusion block entirely (`kwargs.get(key) is True` fails), so the
only document key changed is the one explicitly written: setting
`nuitka.standalone` to `False` leaves `nuitka.onefile` — and every other
key — unchanged, and symmetrically for `nuitka.onefile`. -/
theorem C9_false_update_frame (d : Doc) (k : String) :
    (k ≠ "nuitka.standalone" →
      docSelect (configUpdate d [("nuitka.standalone", Value.vBool false)]) k
        = docSelect d k)
    ∧ (k ≠ "nuitka.onefile" →
      docSelect (configUpdate d [("nuitka.onefile", Value.vBool false)]) k
        = docSelect d k) := by
  constructor
  · intro h
    have he : configUpdate d [("nuitka.standalone", Value.vBool false)]
        = docUpdate d "nuitka.standalone" (Value.vBool false) := rfl
    rw [he, docSelect_docUpdate_ne _ _ _ _ h]
  · intro h
    have he : configUpdate d [("nuitka.onefile", Value.vBool false)]
        = docUpdate d "nuitka.onefile" (Value.vBool false) := rfl
    rw [he, docSelect_docUpdate_ne _ _ _ _ h]

/-- C9 witness: on a document with `nuitka.onefile` true, updating
`nuitka.standalone` to `False` leaves `nuitka.onefile` unchanged, and
vice versa. -/
theorem C9_witness :
    docSelect (configUpdate [("nuitka.onefile", Value.vBool true)]
        [("nuitka.standalone", Value.vBool false)]) "nuitka.onefile"
      = docSelect [("nuitka.onefile", Value.vBool true)] "nuitka.onefile"
    ∧ docSelect (configUpdate [("nuitka.standalone", Value.vBool true)]
        [("nuitka.onefile", Value.vBool false)]) "nuitka.standalone"
      = docSelect [("nuitka.standalone", Value.vBool true)] "nuitka.standalone" :=
  ⟨(C9_false_update_frame [("nuitka.onefile", Value.vBool true)] "nuitka.onefile").1
      (by decide),
   (C9_false_update_frame [("nuitka.standalone", Value.vBool true)] "nuitka.standalone").2
      (by decide)⟩

end Nuitkaty
